import Mathlib

/-!
# Verification of the contact-book manager (`task1.py`)

Shallow embedding of the data model and the upcoming-birthday computation:
field value types (`Phone`, `Birthday`), contact records, the address book,
the `get_upcoming_birthdays` query, and the command handlers wrapped by the
`input_error` decorator.  Dates are modelled as proleptic-Gregorian triples
with the same ordinal/weekday arithmetic as Python's `datetime.date`
(Monday = 0).  Raw user input is modelled as `List Char`; the development
treats strings over the ASCII plane (Python's `\d` additionally matches
non-ASCII Unicode decimal digits, which no theorem here quantifies over).
-/

deriving instance DecidableEq for Except

namespace Task1

/-- A calendar date, as in Python `datetime.date` (proleptic Gregorian). -/
structure Date where
  year : Nat
  month : Nat
  day : Nat
deriving DecidableEq, Repr

/-- Gregorian leap-year rule, as used by `datetime`. -/
def isLeap (y : Nat) : Bool := (y % 4 == 0 && y % 100 != 0) || (y % 400 == 0)

/-- Number of days in month `m` of year `y`. -/
def daysInMonth (y m : Nat) : Nat :=
  if m = 2 then (if isLeap y then 29 else 28)
  else if m = 4 ∨ m = 6 ∨ m = 9 ∨ m = 11 then 30
  else 31

/-- Days in year `y` strictly before month `m`. -/
def daysBeforeMonth (y m : Nat) : Nat :=
  (List.range (m - 1)).foldl (fun acc i => acc + daysInMonth y (i + 1)) 0

/-- Number of leap years in `[1, y)`. -/
def leapsBefore (y : Nat) : Nat := (y - 1) / 4 - (y - 1) / 100 + (y - 1) / 400

/-- `datetime.date.toordinal`: 0001-01-01 is day 1. -/
def Date.toOrdinal (d : Date) : Nat :=
  365 * (d.year - 1) + leapsBefore d.year + daysBeforeMonth d.year d.month + d.day

/-- `datetime.date.weekday`: Monday = 0 .. Sunday = 6. -/
def Date.weekday (d : Date) : Nat := (d.toOrdinal + 6) % 7

/-- The validity condition `datetime.date` enforces at construction. -/
def Date.valid (d : Date) : Bool :=
  1 ≤ d.year && d.year ≤ 9999 && 1 ≤ d.month && d.month ≤ 12 &&
  1 ≤ d.day && d.day ≤ daysInMonth d.year d.month

/-- The day after `d` (rolling over months and years). -/
def Date.succ (d : Date) : Date :=
  if d.day < daysInMonth d.year d.month then ⟨d.year, d.month, d.day + 1⟩
  else if d.month < 12 then ⟨d.year, d.month + 1, 1⟩
  else ⟨d.year + 1, 1, 1⟩

/-- `d + timedelta(days = n)` for `n ≥ 0`. -/
def Date.addDays (d : Date) (n : Nat) : Date := Date.succ^[n] d

/-- `(d1 - d2).days`: signed difference in days. -/
def deltaDays (d1 d2 : Date) : Int := (d1.toOrdinal : Int) - (d2.toOrdinal : Int)

/-- `d.replace(year = y)`: fails (ValueError) when the month/day do not exist
in year `y`, i.e. for Feb 29 in a non-leap year. -/
def replaceYear (d : Date) (y : Nat) : Option Date :=
  if d.day ≤ daysInMonth y d.month then some ⟨y, d.month, d.day⟩ else none

example : Date.weekday ⟨2024, 6, 10⟩ = 0 := by decide
example : Date.weekday ⟨2024, 6, 15⟩ = 5 := by decide
example : Date.addDays ⟨2024, 6, 15⟩ 2 = ⟨2024, 6, 17⟩ := by decide
example : replaceYear ⟨2000, 2, 29⟩ 2023 = none := by decide

/-! ## Text rendering (`strftime` / `str`) -/

/-- Decimal digits of `n`, most significant first, driven by a fuel
argument (`n` itself suffices, since `n / 10 < n`). -/
def natDigitsAux : Nat → Nat → List Char
  | 0, _ => []
  | fuel + 1, n =>
    if n = 0 then []
    else natDigitsAux fuel (n / 10) ++ [Nat.digitChar (n % 10)]

/-- The unpadded decimal rendering of `n` — what `str` and glibc's `%Y`
produce: no leading zeros, so years below 1000 give fewer than four
characters. -/
def natDigits (n : Nat) : List Char :=
  if n = 0 then ['0'] else natDigitsAux n n

/-- The unpadded decimal rendering as a string. -/
def natStr (n : Nat) : String := String.mk (natDigits n)

/-- Zero-pad a number to two digits, as `%d` / `%m` do. -/
def pad2 (n : Nat) : String :=
  String.mk (if n < 10 then '0' :: natDigits n else natDigits n)

/-- Zero-pad a number to four digits, as `date.isoformat` does for the
year. -/
def pad4 (n : Nat) : String :=
  String.mk (if n < 10 then '0' :: '0' :: '0' :: natDigits n
    else if n < 100 then '0' :: '0' :: natDigits n
    else if n < 1000 then '0' :: natDigits n
    else natDigits n)

/-- `d.strftime('%d.%m.%Y')`: day and month zero-padded to two digits, the
year unpadded (as glibc renders `%Y`) — so a stored year below 1000 yields
fewer than four year digits. -/
def strftimeDMY (d : Date) : String :=
  pad2 d.day ++ "." ++ pad2 d.month ++ "." ++ natStr d.year

/-- `str(d)` for a `datetime.date`: ISO format YYYY-MM-DD. -/
def isoStr (d : Date) : String :=
  pad4 d.year ++ "-" ++ pad2 d.month ++ "-" ++ pad2 d.day

example : natStr 999 = "999" := by decide
example : natStr 2024 = "2024" := by decide
example : strftimeDMY ⟨2024, 6, 17⟩ = "17.06.2024" := by decide
example : strftimeDMY ⟨999, 6, 15⟩ = "15.06.999" := by decide
example : isoStr ⟨2024, 6, 17⟩ = "2024-06-17" := by decide

/-! ## Field value types: `Phone` and `Birthday` -/

/-- Numeric value of a digit string (most significant first). -/
def digitsToNat (s : List Char) : Nat :=
  s.foldl (fun acc c => 10 * acc + (c.toNat - 48)) 0

/-- `re.match(r"^\d{10}$", value)` viewed as a truth value: ten digit
characters followed by the end of the string — or, a quirk of Python's `$`
anchor, by one final newline character. -/
def phoneRegexAccepts (s : List Char) : Bool :=
  (s.length = 10 && s.all Char.isDigit) ||
  (s.length = 11 && (s.take 10).all Char.isDigit && s.getLast? = some '\n')

/-- `Phone.__init__`: keeps the raw text as the stored value, or raises
`Exception("Phone number must be exactly 10 digits.")`. -/
def Phone.init (s : List Char) : Except String (List Char) :=
  if phoneRegexAccepts s then .ok s
  else .error "Phone number must be exactly 10 digits."

/-- Day field of CPython `strptime`'s `%d`: regex `3[01]|[12]\d|0[1-9]|[1-9]`.
Followed by the non-digit literal `.`, it must consume the whole leading
digit run, so acceptance is: one digit valued 1–9, or two digits valued
1–31. -/
def dayFieldOk (s : List Char) : Bool :=
  s.all Char.isDigit &&
  ((s.length = 1 && 1 ≤ digitsToNat s && digitsToNat s ≤ 9) ||
   (s.length = 2 && 1 ≤ digitsToNat s && digitsToNat s ≤ 31))

/-- Month field of `%m`: regex `1[0-2]|0[1-9]|[1-9]`: one digit valued 1–9,
or two digits valued 1–12. -/
def monthFieldOk (s : List Char) : Bool :=
  s.all Char.isDigit &&
  ((s.length = 1 && 1 ≤ digitsToNat s && digitsToNat s ≤ 9) ||
   (s.length = 2 && 1 ≤ digitsToNat s && digitsToNat s ≤ 12))

/-- `datetime.strptime(s, '%d.%m.%Y')`, fields only: day run, literal dot,
month run, literal dot, exactly four digits (`%Y`), and nothing after
(strptime rejects unconverted trailing data). -/
def parseStrptimeDMY (s : List Char) : Option (Nat × Nat × Nat) :=
  match (s.span Char.isDigit).2 with
  | c1 :: r2 =>
    if c1 = '.' then
      match (r2.span Char.isDigit).2 with
      | c2 :: r4 =>
        if c2 = '.' then
          if dayFieldOk (s.span Char.isDigit).1 &&
              monthFieldOk (r2.span Char.isDigit).1 &&
              r4.length = 4 && r4.all Char.isDigit then
            some (digitsToNat (s.span Char.isDigit).1,
                  digitsToNat (r2.span Char.isDigit).1, digitsToNat r4)
          else none
        else none
      | [] => none
    else none
  | [] => none

/-- `Birthday.__init__`: strptime parse then `date` construction; any
failure raises `Exception("Invalid date format. Use DD.MM.YYYY")`.  The
stored value is the parsed date. -/
def Birthday.init (s : List Char) : Except String Date :=
  match parseStrptimeDMY s with
  | some (d, m, y) =>
    if Date.valid ⟨y, m, d⟩ then .ok ⟨y, m, d⟩
    else .error "Invalid date format. Use DD.MM.YYYY"
  | none => .error "Invalid date format. Use DD.MM.YYYY"

/-- Line 131: `datetime.strptime(str(user.birthday), DATE_FORMAT).date()` —
the stored birthday is rendered with `str` and parsed back with `%d.%m.%Y`.
The parse fails (a `ValueError` that aborts the whole query) when the
rendered year has fewer than four digits, i.e. for stored years below
1000, since `%Y` requires exactly four; `none` models that failure. -/
def reparseBirthday (bday : Date) : Option Date :=
  match parseStrptimeDMY (strftimeDMY bday).data with
  | some (d, m, y) => if Date.valid ⟨y, m, d⟩ then some ⟨y, m, d⟩ else none
  | none => none

example : reparseBirthday ⟨2024, 6, 15⟩ = some ⟨2024, 6, 15⟩ := by decide
example : reparseBirthday ⟨999, 6, 15⟩ = none := by decide

example : Birthday.init "15.06.2024".data = .ok ⟨2024, 6, 15⟩ := by decide
example : Birthday.init "15.06.0999".data = .ok ⟨999, 6, 15⟩ := by decide
example : Birthday.init "1.1.2024".data = .ok ⟨2024, 1, 1⟩ := by decide
example : Birthday.init "31.02.2024".data =
    .error "Invalid date format. Use DD.MM.YYYY" := by decide
example : Birthday.init "15/06/2024".data =
    .error "Invalid date format. Use DD.MM.YYYY" := by decide
example : Phone.init "1234567890".data = .ok "1234567890".data := by decide
example : Phone.init "1234567890\n".data = .ok "1234567890\n".data := by decide
example : Phone.init "123456789".data =
    .error "Phone number must be exactly 10 digits." := by decide

/-! ## Contact records -/

/-- A `Record`: a name, an ordered phone list (stored `Phone` values), and
an optional birthday (the stored `date`). -/
structure Record where
  name : String
  phones : List (List Char)
  birthday : Option Date
deriving DecidableEq, Repr

/-- `Record(name)`. -/
def Record.mk0 (name : String) : Record := ⟨name, [], none⟩

/-- `Record.add_phone`: validates, then appends; on validation failure the
exception propagates and the phone list is unchanged. -/
def Record.add_phone (r : Record) (s : List Char) : Except String Record :=
  match Phone.init s with
  | .ok v => .ok ⟨r.name, r.phones ++ [v], r.birthday⟩
  | .error e => .error e

/-- `Record.remove_phone`: removes the first phone whose value equals the
argument; when absent it only prints a diagnostic (modelled as a no-op). -/
def Record.remove_phone (r : Record) (s : List Char) : Record :=
  ⟨r.name, r.phones.erase s, r.birthday⟩

/-- `Record.edit_phone old new` = `remove_phone old` then `add_phone new`. -/
def Record.edit_phone (r : Record) (old new : List Char) : Except String Record :=
  (r.remove_phone old).add_phone new

/-- `Record.add_birthday`: the `Birthday` is constructed first; only on
success is the field assigned, so on failure the record is unchanged and
the exception propagates. -/
def Record.add_birthday (r : Record) (s : List Char) : Except String Record :=
  match Birthday.init s with
  | .ok b => .ok ⟨r.name, r.phones, some b⟩
  | .error e => .error e

/-- `str(record)`. -/
def Record.str (r : Record) : String :=
  "Contact name: " ++ r.name ++ ", Phones: " ++
  String.intercalate "; " (r.phones.map fun p => String.mk p) ++
  ", Birthday: " ++
  (match r.birthday with
   | none => "None"
   | some d => strftimeDMY d)

/-! ## Address book -/

/-- The address book: an insertion-ordered mapping from names to records
(a `UserDict` in the source), keys kept unique by dict semantics. -/
abbrev Book := List (String × Record)

/-- Python dict assignment `data[k] = v`: replace in place, else append. -/
def dictSet (b : Book) (k : String) (v : Record) : Book :=
  match b with
  | [] => [(k, v)]
  | (k', v') :: rest =>
    if k' = k then (k, v) :: rest else (k', v') :: dictSet rest k v

/-- Python `del data[k]` guarded by a membership test (`AddressBook.delete`);
absent keys only print a diagnostic. -/
def dictDel (b : Book) (k : String) : Book :=
  match b with
  | [] => []
  | (k', v') :: rest => if k' = k then rest else (k', v') :: dictDel rest k

/-- `AddressBook.add_record`: stores under `new_record.name.value`. -/
def Book.add_record (b : Book) (r : Record) : Book := dictSet b r.name r

/-- `AddressBook.find`: `data.get(name)`. -/
def Book.find (b : Book) (k : String) : Option Record :=
  match b with
  | [] => none
  | (k', v) :: rest => if k' = k then some v else Book.find rest k

/-- Apply `f` to the record stored under `k` (the object `find` aliases);
identity when `k` is absent. -/
def Book.mutateAt (b : Book) (k : String) (f : Record → Record) : Book :=
  match b with
  | [] => []
  | (k', v) :: rest =>
    if k' = k then (k', f v) :: rest else (k', v) :: Book.mutateAt rest k f

/-! ## The upcoming-birthday query -/

/-- Weekday threshold (`WEEKDAYS_LENGTH = 5`) and week length
(`WEEK_LENGTH = 7`) from the source. -/
def WEEKDAYS_LENGTH : Nat := 5

/-- `WEEK_LENGTH = 7`. -/
def WEEK_LENGTH : Nat := 7

/-- Lines 138–143: the `congratulation_date` value, which is a
`%d.%m.%Y`-formatted string on Mon–Fri and a raw `date` object (shifted to
the next Monday) on weekends. -/
def congratObj (anchored : Date) : String ⊕ Date :=
  if anchored.weekday < WEEKDAYS_LENGTH then .inl (strftimeDMY anchored)
  else .inr (anchored.addDays (WEEK_LENGTH - anchored.weekday))

/-- Line 145: the appended result line for a qualifying record. -/
def congratLine (r : Record) (anchored : Date) : String :=
  r.str ++ ", Congratulation date: " ++
  (match congratObj anchored with
   | .inl s => s
   | .inr d => isoStr d)

/-- Lines 126–145 for one record: `none` models an exception escaping to
the whole-loop handler — either the line-131 re-parse of the stored
birthday's rendered text failing (stored year below 1000 renders with
fewer than four `%Y` digits), or Feb 29 anchored onto a non-leap year;
`some none` means the record is skipped; `some (some line)` means it
qualifies. -/
def processUser (today : Date) (r : Record) : Option (Option String) :=
  match r.birthday with
  | none => some none
  | some bday =>
    match reparseBirthday bday with
    | none => none
    | some ub =>
      match replaceYear ub today.year with
      | none => none
      | some anchored =>
        if 0 ≤ deltaDays anchored today ∧ deltaDays anchored today < 7 then
          some (some (congratLine r anchored))
        else some none

/-- The loop of lines 126–145 over the book: the collected lines, or `none`
when some record raised (which discards every collected line). -/
def collectAll (book : Book) (today : Date) : Option (List String) :=
  match book with
  | [] => some []
  | (_, r) :: rest =>
    match processUser today r with
    | none => none
    | some none => collectAll rest today
    | some (some line) => (collectAll rest today).map (line :: ·)

/-- `AddressBook.get_upcoming_birthdays`, with `today` made explicit: `none`
both when no record qualifies and when the loop raised (the handler prints
the exception and the function falls through to `return None`). -/
def get_upcoming_birthdays (book : Book) (today : Date) : Option String :=
  match collectAll book today with
  | none => none
  | some lines =>
    if lines.length = 0 then none else some (String.intercalate "\n" lines)

/-- The `birthdays` command handler (the `input_error` wrapper never fires:
`get_upcoming_birthdays` catches internally). -/
def birthdaysCmd (book : Book) (today : Date) : String :=
  match get_upcoming_birthdays book today with
  | none => "Upcoming birthdays not found."
  | some s => s

/-! ## Command handlers and the `input_error` decorator -/

/-- The Python exceptions the handlers can raise. -/
inductive PyExc where
  | keyError (msg : String)
  | valueError (msg : String)
  | indexError (msg : String)
  | exception (msg : String)
deriving DecidableEq, Repr

/-- What an `input_error`-wrapped handler hands back to the loop: either a
message string, or — through `except Exception as e: return e` — the
exception object itself (the loop prints it, showing its message). -/
inductive Handled where
  | msg (s : String)
  | excObj (e : PyExc)
deriving DecidableEq, Repr

/-- The `input_error` decorator: `KeyError` and `ValueError` get dedicated
messages; everything else is swallowed by `except Exception as e: return e`.
The source's final `except IndexError` clause (returning
"Give me both name and phone number.") sits after `except Exception` and is
unreachable. -/
def input_error (r : Except PyExc String) : Handled :=
  match r with
  | .ok s => .msg s
  | .error (.keyError _) => .msg "Enter a valid command."
  | .error (.valueError _) => .msg "Enter the argument for the command."
  | .error e => .excObj e

/-- Python tuple unpacking `a, b = args`: `ValueError` on wrong arity. -/
def unpack2 (args : List (List Char)) : Except PyExc (List Char × List Char) :=
  match args with
  | [a, b] => .ok (a, b)
  | l =>
    if l.length < 2 then
      .error (.valueError
        ("not enough values to unpack (expected 2, got " ++ toString l.length ++ ")"))
    else .error (.valueError "too many values to unpack (expected 2)")

/-- Python tuple unpacking `a, b, c = args`. -/
def unpack3 (args : List (List Char)) :
    Except PyExc (List Char × List Char × List Char) :=
  match args with
  | [a, b, c] => .ok (a, b, c)
  | l =>
    if l.length < 3 then
      .error (.valueError
        ("not enough values to unpack (expected 3, got " ++ toString l.length ++ ")"))
    else .error (.valueError "too many values to unpack (expected 3)")

/-- `add_contact(args, book)` before the decorator, with the book state it
leaves behind.  The record is inserted before the phone is validated, so a
bad phone leaves the fresh (phoneless) record in the book. -/
def add_contact (args : List (List Char)) (b : Book) : Except PyExc String × Book :=
  match unpack2 args with
  | .error e => (.error e, b)
  | .ok (name, phone) =>
    let nameS := String.mk name
    match b.find nameS with
    | none =>
      let b1 := b.add_record (Record.mk0 nameS)
      if phone = [] then (.ok ("Contact " ++ nameS ++ " has been added."), b1)
      else
        match Phone.init phone with
        | .ok v =>
          (.ok ("Contact " ++ nameS ++ " has been added."),
           b1.mutateAt nameS fun r => ⟨r.name, r.phones ++ [v], r.birthday⟩)
        | .error e => (.error (.exception e), b1)
    | some _ =>
      if phone = [] then (.ok ("Contact " ++ nameS ++ " has been updated."), b)
      else
        match Phone.init phone with
        | .ok v =>
          (.ok ("Contact " ++ nameS ++ " has been updated."),
           b.mutateAt nameS fun r => ⟨r.name, r.phones ++ [v], r.birthday⟩)
        | .error e => (.error (.exception e), b)

/-- `change_contact(args, book)`: `edit_phone` removes the old phone first,
then validates the new one, so a bad new phone still removes the old. -/
def change_contact (args : List (List Char)) (b : Book) :
    Except PyExc String × Book :=
  match unpack3 args with
  | .error e => (.error e, b)
  | .ok (name, oldp, newp) =>
    let nameS := String.mk name
    match b.find nameS with
    | none => (.ok ("Contact " ++ nameS ++ " not found."), b)
    | some _ =>
      let b1 := b.mutateAt nameS fun r => r.remove_phone oldp
      match Phone.init newp with
      | .ok v =>
        (.ok ("Contact " ++ nameS ++ " has been updated."),
         b1.mutateAt nameS fun r => ⟨r.name, r.phones ++ [v], r.birthday⟩)
      | .error e => (.error (.exception e), b1)

/-- `show_phone(args, book)`: `args[0]` raises `IndexError` when empty. -/
def show_phone (args : List (List Char)) (b : Book) : Except PyExc String :=
  match args with
  | [] => .error (.indexError "list index out of range")
  | name :: _ =>
    let nameS := String.mk name
    match b.find nameS with
    | none => .ok ("Contact " ++ nameS ++ " not found.")
    | some r => .ok (String.intercalate "; " (r.phones.map fun p => String.mk p))

/-- `add_birthday(args, book)` (the command handler): validates through the
`Birthday` constructor; on failure the exception propagates and no record
is touched. -/
def add_birthday_cmd (args : List (List Char)) (b : Book) :
    Except PyExc String × Book :=
  match unpack2 args with
  | .error e => (.error e, b)
  | .ok (name, bd) =>
    let nameS := String.mk name
    match b.find nameS with
    | none => (.ok ("Contact " ++ nameS ++ " not found."), b)
    | some _ =>
      match Birthday.init bd with
      | .ok d =>
        (.ok ("Birthday has been added to " ++ nameS ++ "."),
         b.mutateAt nameS fun r => ⟨r.name, r.phones, some d⟩)
      | .error e => (.error (.exception e), b)

/-- `delete_contact(args, book)`. -/
def delete_contact (args : List (List Char)) (b : Book) :
    Except PyExc String × Book :=
  match args with
  | [] => (.error (.indexError "list index out of range"), b)
  | name :: _ =>
    let nameS := String.mk name
    match b.find nameS with
    | none => (.ok "Contact not found.", b)
    | some _ => (.ok ("Contact " ++ nameS ++ " has been deleted."), dictDel b nameS)

/-! ## Reachable address-book states (for the key/name invariant) -/

/-- The public operations that build address books. -/
inductive Op where
  | addRecordOp (r : Record)
  | addContactOp (name phone : List Char)
  | changeOp (name oldp newp : List Char)
  | addBirthdayOp (name bd : List Char)
  | deleteOp (args : List (List Char))

/-- Apply one operation's state effect. -/
def applyOp (b : Book) : Op → Book
  | .addRecordOp r => b.add_record r
  | .addContactOp name phone => (add_contact [name, phone] b).2
  | .changeOp name oldp newp => (change_contact [name, oldp, newp] b).2
  | .addBirthdayOp name bd => (add_birthday_cmd [name, bd] b).2
  | .deleteOp args => (delete_contact args b).2

/-- The book reached from the empty book by a sequence of operations. -/
def reachable (ops : List Op) : Book := ops.foldl applyOp []

/-! ## Spec-side definitions

These state the spec's sentences in its own words, to be compared with the
definitions embedded from the source. -/

/-- Spec §4.3 step 3: a record qualifies exactly when it has a birthday
whose month/day anchored onto the current year gives
`0 ≤ delta_days < 7`; its result line, when it qualifies. -/
def qualLine (today : Date) (r : Record) : Option String :=
  match r.birthday with
  | none => none
  | some bday =>
    match replaceYear bday today.year with
    | none => none
    | some anchored =>
      if 0 ≤ deltaDays anchored today ∧ deltaDays anchored today < 7 then
        some (congratLine r anchored)
      else none

/-- Spec-side acceptance for `Phone`, amended for Python's `$` anchor: ten
decimal digits, or ten decimal digits followed by one final newline. -/
def phoneSpecOk (s : List Char) : Prop :=
  (s.length = 10 ∧ ∀ c ∈ s, c.isDigit) ∨
  (∃ d, s = d ++ ['\n'] ∧ d.length = 10 ∧ ∀ c ∈ d, c.isDigit)

/-- Spec-side shape for `Birthday` input, amended for `strptime`'s field
regexes: day and month fields of one digit (1–9) or two digits (day 1–31,
month 1–12), a year field of exactly four digits, dot-separated, nothing
else; `d`, `m`, `y` are the fields' numeric values. -/
def dmyRepr (s : List Char) (d m y : Nat) : Prop :=
  ∃ ds ms ys, s = ds ++ '.' :: (ms ++ '.' :: ys) ∧
    (∀ c ∈ ds, c.isDigit) ∧ (∀ c ∈ ms, c.isDigit) ∧ (∀ c ∈ ys, c.isDigit) ∧
    ((ds.length = 1 ∧ 1 ≤ d ∧ d ≤ 9) ∨ (ds.length = 2 ∧ 1 ≤ d ∧ d ≤ 31)) ∧
    ((ms.length = 1 ∧ 1 ≤ m ∧ m ≤ 9) ∨ (ms.length = 2 ∧ 1 ≤ m ∧ m ≤ 12)) ∧
    ys.length = 4 ∧
    d = digitsToNat ds ∧ m = digitsToNat ms ∧ y = digitsToNat ys

/-- The character is in the ASCII plane (where the model's digit test
agrees with Python's Unicode-aware `\d` and `int`). -/
def asciiOnly (s : List Char) : Prop := ∀ c ∈ s, c.toNat < 128

/-- Spec §3's address-book invariant: every value's `name` equals its own
key, and keys are unique. -/
def bookInv (b : Book) : Prop :=
  (∀ e ∈ b, Record.name e.2 = e.1) ∧ (b.map Prod.fst).Nodup

/-! ## Concrete fixtures (spec §8's reference scenario and edge cases) -/

/-- The spec's fixed reference date, Monday 2024-06-10. -/
def refToday : Date := ⟨2024, 6, 10⟩

/-- Contact whose birthday anchors to `today + 0`. -/
def recP0 : Record := ⟨"P0", ["1234567890".data], some ⟨1990, 6, 10⟩⟩

/-- Contact whose birthday anchors to `today + 6` (Sunday 2024-06-16). -/
def recP6 : Record := ⟨"P6", [], some ⟨1985, 6, 16⟩⟩

/-- Contact whose birthday anchors to `today + 7`. -/
def recP7 : Record := ⟨"P7", [], some ⟨1970, 6, 17⟩⟩

/-- Contact whose birthday anchors to `today - 1`. -/
def recM1 : Record := ⟨"M1", [], some ⟨2000, 6, 9⟩⟩

/-- The four-contact reference book of spec §8. -/
def refBook : Book := [("P0", recP0), ("P6", recP6), ("P7", recP7), ("M1", recM1)]

/-- A contact that qualifies on 2023-06-01. -/
def recBob : Record := ⟨"Bob", ["1234567890".data], some ⟨1990, 6, 1⟩⟩

/-- A contact with a Feb-29 birthday. -/
def recLena : Record := ⟨"Lena", [], some ⟨2000, 2, 29⟩⟩

/-! ## Helper lemmas -/

theorem collectAll_none_or_nil (book : Book) (today : Date)
    (h : ∀ e ∈ book, ∀ l, processUser today e.2 ≠ some (some l)) :
    collectAll book today = none ∨ collectAll book today = some [] := by
  induction book with
  | nil => right; rfl
  | cons x rest ih =>
    obtain ⟨k, r⟩ := x
    have ih' := ih fun e he l => h e (List.mem_cons_of_mem _ he) l
    cases hp : processUser today r with
    | none => left; simp [collectAll, hp]
    | some o =>
      cases o with
      | none => simpa [collectAll, hp] using ih'
      | some l => exact absurd hp (h (k, r) (by simp) l)

theorem collectAll_none_of_mem_abort (book : Book) (today : Date) (e : String × Record)
    (he : e ∈ book) (hp : processUser today e.2 = none) :
    collectAll book today = none := by
  induction book with
  | nil => cases he
  | cons x rest ih =>
    obtain ⟨k, r⟩ := x
    rcases List.mem_cons.mp he with hx | hmem
    · subst hx
      simp [collectAll, hp]
    · cases hx : processUser today r with
      | none => simp [collectAll, hx]
      | some o =>
        cases o with
        | none => simpa [collectAll, hx] using ih hmem
        | some l => simp [collectAll, hx, ih hmem]

theorem phoneRegexAccepts_iff (s : List Char) :
    phoneRegexAccepts s = true ↔ phoneSpecOk s := by
  unfold phoneRegexAccepts phoneSpecOk
  simp only [Bool.or_eq_true, Bool.and_eq_true, decide_eq_true_eq, List.all_eq_true]
  constructor
  · rintro (⟨h10, hd⟩ | ⟨⟨h11, hd⟩, hl⟩)
    · exact Or.inl ⟨h10, hd⟩
    · right
      have hd1 : (s.drop 10).length = 1 := by simp [h11]
      obtain ⟨c, hc⟩ := List.length_eq_one.mp hd1
      have hs : s = s.take 10 ++ [c] := by
        conv_lhs => rw [← List.take_append_drop 10 s]
        rw [hc]
      have hcn : c = '\n' := by
        rw [hs, List.getLast?_concat] at hl
        exact (Option.some_inj.mp hl)
      subst hcn
      exact ⟨s.take 10, hs, by simp [List.length_take, h11], hd⟩
  · rintro (⟨h10, hd⟩ | ⟨d, hs, h10, hd⟩)
    · exact Or.inl ⟨h10, hd⟩
    · right
      subst hs
      have hts : (d ++ ['\n']).take 10 = d := by
        rw [← h10]
        exact List.take_left d _
      refine ⟨⟨by simp [h10], ?_⟩, List.getLast?_concat d⟩
      rw [hts]
      exact hd

theorem takeWhile_digits_dot (a rest : List Char) (ha : ∀ c ∈ a, c.isDigit) :
    (a ++ '.' :: rest).takeWhile Char.isDigit = a := by
  induction a with
  | nil => simp [List.takeWhile_cons, show ('.' : Char).isDigit = false from rfl]
  | cons x xs ih =>
    have hx : x.isDigit = true := ha x (by simp)
    simp only [List.cons_append, List.takeWhile_cons, hx, if_true]
    rw [ih fun c hc => ha c (by simp [hc])]

theorem dropWhile_digits_dot (a rest : List Char) (ha : ∀ c ∈ a, c.isDigit) :
    (a ++ '.' :: rest).dropWhile Char.isDigit = '.' :: rest := by
  induction a with
  | nil => simp [List.dropWhile_cons, show ('.' : Char).isDigit = false from rfl]
  | cons x xs ih =>
    have hx : x.isDigit = true := ha x (by simp)
    simp only [List.cons_append, List.dropWhile_cons, hx, if_true]
    exact ih fun c hc => ha c (by simp [hc])

theorem parse_decomposed (ds ms ys : List Char)
    (hds : ∀ c ∈ ds, c.isDigit) (hms : ∀ c ∈ ms, c.isDigit) :
    parseStrptimeDMY (ds ++ '.' :: (ms ++ '.' :: ys)) =
      (if dayFieldOk ds && monthFieldOk ms &&
          decide (ys.length = 4) && ys.all Char.isDigit then
        some (digitsToNat ds, digitsToNat ms, digitsToNat ys)
      else none) := by
  unfold parseStrptimeDMY
  simp only [List.span_eq_take_drop, takeWhile_digits_dot _ _ hds,
    dropWhile_digits_dot _ _ hds, takeWhile_digits_dot _ _ hms,
    dropWhile_digits_dot _ _ hms, if_pos rfl, if_true]

theorem parseStrptimeDMY_some_iff (s : List Char) (d m y : Nat) :
    parseStrptimeDMY s = some (d, m, y) ↔ dmyRepr s d m y := by
  constructor
  · intro h
    unfold parseStrptimeDMY at h
    simp only [List.span_eq_take_drop] at h
    split at h
    case h_2 => exact absurd h (by simp)
    case h_1 c1 r2 h1 =>
      replace h1 : s.dropWhile Char.isDigit = c1 :: r2 := h1
      split at h
      case isFalse => exact absurd h (by simp)
      case isTrue hc1 =>
        subst hc1
        split at h
        case h_2 => exact absurd h (by simp)
        case h_1 c2 r4 h2 =>
          replace h2 : r2.dropWhile Char.isDigit = c2 :: r4 := h2
          split at h
          case isFalse => exact absurd h (by simp)
          case isTrue hc2 =>
            subst hc2
            split at h
            case isFalse => exact absurd h (by simp)
            case isTrue hcond =>
              simp only [Bool.and_eq_true, decide_eq_true_eq, dayFieldOk,
                monthFieldOk, Bool.or_eq_true, List.all_eq_true] at hcond
              obtain ⟨⟨⟨⟨hdall, hdlen⟩, hmall, hmlen⟩, hy4⟩, hyall⟩ := hcond
              obtain ⟨rfl, rfl, rfl⟩ : digitsToNat (s.takeWhile Char.isDigit) = d ∧
                  digitsToNat (r2.takeWhile Char.isDigit) = m ∧ digitsToNat r4 = y := by
                simpa using h
              refine ⟨s.takeWhile Char.isDigit, r2.takeWhile Char.isDigit, r4, ?_,
                hdall, hmall, hyall, ?_, ?_, hy4, rfl, rfl, rfl⟩
              · conv_lhs => rw [← List.takeWhile_append_dropWhile (p := Char.isDigit) (l := s)]
                rw [h1]
                congr 1
                conv_lhs => rw [← List.takeWhile_append_dropWhile (p := Char.isDigit) (l := r2)]
                rw [h2]
              · tauto
              · tauto
  · rintro ⟨ds, ms, ys, hs, hds, hms, hys, hdlen, hmlen, hylen, hdv, hmv, hyv⟩
    subst hs hdv hmv hyv
    rw [parse_decomposed ds ms ys hds hms]
    have hday : dayFieldOk ds = true := by
      simp only [dayFieldOk, Bool.and_eq_true, Bool.or_eq_true, decide_eq_true_eq,
        List.all_eq_true]
      exact ⟨hds, by tauto⟩
    have hmonth : monthFieldOk ms = true := by
      simp only [monthFieldOk, Bool.and_eq_true, Bool.or_eq_true, decide_eq_true_eq,
        List.all_eq_true]
      exact ⟨hms, by tauto⟩
    simp [hday, hmonth, hylen, List.all_eq_true.mpr hys]

theorem digitChar_isDigit (k : Nat) (h : k < 10) : (Nat.digitChar k).isDigit = true := by
  interval_cases k <;> decide

theorem digitChar_toNat (k : Nat) (h : k < 10) : (Nat.digitChar k).toNat - 48 = k := by
  interval_cases k <;> decide

theorem digitsToNat_append_last (l : List Char) (c : Char) :
    digitsToNat (l ++ [c]) = 10 * digitsToNat l + (c.toNat - 48) := by
  simp [digitsToNat, List.foldl_append]

theorem natDigitsAux_digits (fuel : Nat) :
    ∀ n, ∀ c ∈ natDigitsAux fuel n, c.isDigit = true := by
  induction fuel with
  | zero =>
    intro n c hc
    simp [natDigitsAux] at hc
  | succ fuel ih =>
    intro n c hc
    unfold natDigitsAux at hc
    by_cases hn : n = 0
    · rw [if_pos hn] at hc
      cases hc
    · rw [if_neg hn] at hc
      rcases List.mem_append.mp hc with h1 | h1
      · exact ih (n / 10) c h1
      · rw [List.mem_singleton] at h1
        subst h1
        exact digitChar_isDigit _ (Nat.mod_lt n (by omega))

theorem natDigitsAux_toNat (fuel : Nat) :
    ∀ n, n ≤ fuel → digitsToNat (natDigitsAux fuel n) = n := by
  induction fuel with
  | zero =>
    intro n hn
    obtain rfl : n = 0 := by omega
    rfl
  | succ fuel ih =>
    intro n hn
    unfold natDigitsAux
    by_cases h0 : n = 0
    · rw [if_pos h0]
      subst h0
      rfl
    · rw [if_neg h0, digitsToNat_append_last, ih (n / 10) (by omega),
        digitChar_toNat _ (Nat.mod_lt n (by omega))]
      omega

theorem digitsToNat_natDigits (n : Nat) : digitsToNat (natDigits n) = n := by
  unfold natDigits
  by_cases hn : n = 0
  · rw [if_pos hn]
    subst hn
    rfl
  · rw [if_neg hn]
    exact natDigitsAux_toNat n n le_rfl

theorem natDigits_digits (n : Nat) : ∀ c ∈ natDigits n, c.isDigit = true := by
  unfold natDigits
  by_cases hn : n = 0
  · rw [if_pos hn]
    intro c hc
    rw [List.mem_singleton] at hc
    subst hc
    decide
  · rw [if_neg hn]
    exact natDigitsAux_digits n n

theorem pad2_digits (n : Nat) : ∀ c ∈ (pad2 n).data, c.isDigit = true := by
  show ∀ c ∈ (if n < 10 then '0' :: natDigits n else natDigits n), c.isDigit = true
  split_ifs with h
  · intro c hc
    rcases List.mem_cons.mp hc with rfl | hc'
    · decide
    · exact natDigits_digits n c hc'
  · exact natDigits_digits n

theorem digitsToNat_pad2 (n : Nat) : digitsToNat (pad2 n).data = n := by
  show digitsToNat (if n < 10 then '0' :: natDigits n else natDigits n) = n
  split_ifs with h
  · have hz : digitsToNat ('0' :: natDigits n) = digitsToNat (natDigits n) := by
      simp [digitsToNat]
    rw [hz, digitsToNat_natDigits]
  · exact digitsToNat_natDigits n

theorem digits_dot_inj (a u b v : List Char) (ha : ∀ c ∈ a, c.isDigit = true)
    (hb : ∀ c ∈ b, c.isDigit = true) (h : a ++ '.' :: u = b ++ '.' :: v) :
    a = b ∧ u = v := by
  have hab : a = b := by
    rw [← takeWhile_digits_dot a u ha, ← takeWhile_digits_dot b v hb, h]
  subst hab
  have hc := List.append_cancel_left h
  exact ⟨rfl, by injection hc⟩

theorem reparse_roundtrip (bday : Date) (d m y : Nat)
    (h : parseStrptimeDMY (strftimeDMY bday).data = some (d, m, y)) :
    d = bday.day ∧ m = bday.month ∧ y = bday.year := by
  obtain ⟨ds, ms, ys, hs, hds, hms, hys, hdlen, hmlen, hylen, hdv, hmv, hyv⟩ :=
    (parseStrptimeDMY_some_iff _ d m y).mp h
  have hshape : (strftimeDMY bday).data =
      (pad2 bday.day).data ++ '.' ::
        ((pad2 bday.month).data ++ '.' :: natDigits bday.year) := by
    show (pad2 bday.day ++ "." ++ pad2 bday.month ++ "." ++ natStr bday.year).data = _
    simp [String.data_append, natStr]
  rw [hshape] at hs
  obtain ⟨h1, h2⟩ := digits_dot_inj _ _ _ _ (pad2_digits bday.day) hds hs
  obtain ⟨h3, h4⟩ := digits_dot_inj _ _ _ _ (pad2_digits bday.month) hms h2
  subst hdv hmv hyv
  refine ⟨?_, ?_, ?_⟩
  · rw [← h1, digitsToNat_pad2]
  · rw [← h3, digitsToNat_pad2]
  · rw [← h4, digitsToNat_natDigits]

theorem reparseBirthday_eq (bday ub : Date) (h : reparseBirthday bday = some ub) :
    ub = bday := by
  unfold reparseBirthday at h
  split at h
  case h_2 => exact absurd h (by simp)
  case h_1 d m y hp =>
    split at h
    case isFalse => exact absurd h (by simp)
    case isTrue hv =>
      obtain ⟨hd, hm, hy⟩ := reparse_roundtrip bday d m y hp
      subst hd hm hy
      have hu := Option.some.inj h
      rw [← hu]

theorem processUser_eq_qualLine (today : Date) (r : Record)
    (h : processUser today r ≠ none) :
    processUser today r = some (qualLine today r) := by
  cases hb : r.birthday with
  | none => simp [processUser, qualLine, hb]
  | some bday =>
    cases hrb : reparseBirthday bday with
    | none =>
      exfalso
      apply h
      simp [processUser, hb, hrb]
    | some ub =>
      have hub : ub = bday := reparseBirthday_eq bday ub hrb
      cases ha : replaceYear bday today.year with
      | none =>
        exfalso
        apply h
        simp [processUser, hb, hrb, hub, ha]
      | some anchored =>
        simp only [processUser, qualLine, hb, hrb, hub, ha]
        split <;> simp

theorem collectAll_eq_filterMap (book : Book) (today : Date)
    (h : ∀ e ∈ book, processUser today e.2 ≠ none) :
    collectAll book today = some (book.filterMap fun e => qualLine today e.2) := by
  induction book with
  | nil => rfl
  | cons e rest ih =>
    obtain ⟨k, r⟩ := e
    have he : processUser today r = some (qualLine today r) :=
      processUser_eq_qualLine today r (h (k, r) (by simp))
    have ih' := ih fun x hx => h x (List.mem_cons_of_mem _ hx)
    cases hq : qualLine today r with
    | none =>
      rw [hq] at he
      simp [collectAll, he, ih', List.filterMap_cons, hq]
    | some line =>
      rw [hq] at he
      simp [collectAll, he, ih', List.filterMap_cons, hq]

theorem daysInMonth_pos (y m : Nat) : 1 ≤ daysInMonth y m := by
  unfold daysInMonth
  split_ifs <;> omega

theorem daysBeforeMonth_step (y k : Nat) :
    daysBeforeMonth y (k + 2) = daysBeforeMonth y (k + 1) + daysInMonth y (k + 1) := by
  unfold daysBeforeMonth
  simp [List.range_succ, List.foldl_append]

theorem leapsBefore_step (y : Nat) (hy : 1 ≤ y) :
    leapsBefore (y + 1) = leapsBefore y + (if isLeap y then 1 else 0) := by
  unfold leapsBefore isLeap
  obtain ⟨z, rfl⟩ : ∃ z, y = z + 1 := ⟨y - 1, by omega⟩
  simp only [Nat.add_sub_cancel]
  split_ifs with hc
  · simp only [Bool.or_eq_true, Bool.and_eq_true, beq_iff_eq, bne_iff_ne] at hc
    omega
  · simp only [Bool.or_eq_true, Bool.and_eq_true, beq_iff_eq, bne_iff_ne] at hc
    push_neg at hc
    omega

theorem daysBeforeMonth_12 (y : Nat) :
    daysBeforeMonth y 12 = 306 + daysInMonth y 2 := by
  cases hl : isLeap y <;>
    simp [daysBeforeMonth, List.range_succ, List.foldl_append, daysInMonth, hl]

theorem toOrdinal_succ (d : Date) (h : d.valid = true) :
    d.succ.toOrdinal = d.toOrdinal + 1 := by
  unfold Date.valid at h
  simp only [Bool.and_eq_true, decide_eq_true_eq] at h
  obtain ⟨⟨⟨⟨⟨hy1, hy2⟩, hm1⟩, hm2⟩, hd1⟩, hd2⟩ := h
  unfold Date.succ
  split_ifs with hlt hm12
  · show 365 * (d.year - 1) + leapsBefore d.year + daysBeforeMonth d.year d.month +
      (d.day + 1) =
      365 * (d.year - 1) + leapsBefore d.year + daysBeforeMonth d.year d.month +
      d.day + 1
    omega
  · have hdm : d.day = daysInMonth d.year d.month := by omega
    have hstep : daysBeforeMonth d.year (d.month + 1) =
        daysBeforeMonth d.year d.month + daysInMonth d.year d.month := by
      obtain ⟨k, hk⟩ : ∃ k, d.month = k + 1 := ⟨d.month - 1, by omega⟩
      rw [hk]
      exact daysBeforeMonth_step d.year k
    show 365 * (d.year - 1) + leapsBefore d.year + daysBeforeMonth d.year (d.month + 1) +
      1 =
      365 * (d.year - 1) + leapsBefore d.year + daysBeforeMonth d.year d.month +
      d.day + 1
    omega
  · have hm' : d.month = 12 := by omega
    have hdm : d.day = daysInMonth d.year d.month := by omega
    have hday31 : d.day = 31 := by
      rw [hdm, hm']
      simp [daysInMonth]
    have hleap := leapsBefore_step d.year hy1
    have h12 := daysBeforeMonth_12 d.year
    have h2 : daysInMonth d.year 2 = if isLeap d.year then 29 else 28 := by
      simp [daysInMonth]
    have h0 : daysBeforeMonth (d.year + 1) 1 = 0 := rfl
    show 365 * (d.year + 1 - 1) + leapsBefore (d.year + 1) +
      daysBeforeMonth (d.year + 1) 1 + 1 =
      365 * (d.year - 1) + leapsBefore d.year + daysBeforeMonth d.year d.month +
      d.day + 1
    rw [hm', hday31, h0, h12, hleap, h2]
    split_ifs <;> omega

theorem weekday_succ (d : Date) (h : d.valid = true) :
    d.succ.weekday = (d.weekday + 1) % 7 := by
  unfold Date.weekday
  rw [toOrdinal_succ d h]
  omega

theorem succ_valid (d : Date) (h : d.valid = true) (hy : d.year ≤ 9998) :
    d.succ.valid = true := by
  unfold Date.valid at h ⊢
  simp only [Bool.and_eq_true, decide_eq_true_eq] at h ⊢
  obtain ⟨⟨⟨⟨⟨hy1, hy2⟩, hm1⟩, hm2⟩, hd1⟩, hd2⟩ := h
  unfold Date.succ
  split_ifs with hlt hm12 <;> dsimp only
  · exact ⟨⟨⟨⟨⟨hy1, hy2⟩, hm1⟩, hm2⟩, by omega⟩, by omega⟩
  · exact ⟨⟨⟨⟨⟨hy1, hy2⟩, by omega⟩, by omega⟩, by omega⟩,
      daysInMonth_pos d.year (d.month + 1)⟩
  · exact ⟨⟨⟨⟨⟨by omega, by omega⟩, by omega⟩, by omega⟩, by omega⟩,
      daysInMonth_pos (d.year + 1) 1⟩

theorem shift_to_monday (a : Date) (h : a.valid = true) (hy : a.year ≤ 9998)
    (hw : 5 ≤ a.weekday) : (a.addDays (7 - a.weekday)).weekday = 0 := by
  have hw7 : a.weekday < 7 := Nat.mod_lt _ (by omega)
  have hv1 : a.succ.valid = true := succ_valid a h hy
  rcases (by omega : a.weekday = 5 ∨ a.weekday = 6) with h5 | h6
  · have e : a.addDays (7 - a.weekday) = a.succ.succ := by
      rw [h5]
      rfl
    rw [e, weekday_succ _ hv1, weekday_succ _ h, h5]
  · have e : a.addDays (7 - a.weekday) = a.succ := by
      rw [h6]
      rfl
    rw [e, weekday_succ _ h, h6]

/-! ## Claim theorems -/

/-- C4 (counterexample): `"1234567890\n"` — ten digits plus a trailing
newline — is accepted by `Phone`, although it is not a string of exactly
ten digits with no trailing characters: Python's `$` anchor also matches
just before a final newline. -/
theorem phone_newline_accepted_cex :
    Phone.init "1234567890\n".data = .ok "1234567890\n".data ∧
    "1234567890\n".data.length ≠ 10 ∧
    ¬ (∀ c ∈ "1234567890\n".data, c.isDigit) := by
  refine ⟨by decide, by decide, by decide⟩

/-- C4 (amended): over ASCII input, `Phone` construction succeeds — storing
and rendering the input exactly — precisely on ten decimal digits
optionally followed by one final newline; every other string fails with
`Exception("Phone number must be exactly 10 digits.")`. -/
theorem phone_validation_amended (s : List Char) (h : asciiOnly s) :
    (phoneSpecOk s → Phone.init s = .ok s) ∧
    (¬ phoneSpecOk s →
      Phone.init s = .error "Phone number must be exactly 10 digits.") := by
  constructor
  · intro hs
    rw [Phone.init, if_pos ((phoneRegexAccepts_iff s).mpr hs)]
  · intro hs
    rw [Phone.init, if_neg (fun hb => hs ((phoneRegexAccepts_iff s).mp hb))]

/-- Witness for the amended C4: a plain ten-digit string succeeds and
round-trips; `"123"` fails with the validation message. -/
theorem phone_validation_amended_witness :
    asciiOnly "1234567890".data ∧ phoneSpecOk "1234567890".data ∧
    Phone.init "1234567890".data = .ok "1234567890".data ∧
    ¬ phoneSpecOk "123".data ∧
    Phone.init "123".data = .error "Phone number must be exactly 10 digits." := by
  have hnot : ¬ phoneSpecOk "123".data :=
    fun hs => absurd ((phoneRegexAccepts_iff _).mpr hs) (by decide)
  refine ⟨?_, Or.inl ⟨by decide, by decide⟩, ?_, hnot, ?_⟩
  · intro c hc
    fin_cases hc <;> decide
  · exact (phone_validation_amended "1234567890".data (by intro c hc; fin_cases hc <;> decide)).1
      (Or.inl ⟨by decide, by decide⟩)
  · exact (phone_validation_amended "123".data (by intro c hc; fin_cases hc <;> decide)).2 hnot

/-- C1: provided no record aborts the loop — neither a line-131 re-parse
failure (a stored year below 1000 renders with fewer than four `%Y`
digits) nor a Feb-29 birthday anchored onto a non-leap year —
`get_upcoming_birthdays` includes exactly the contacts with a birthday
whose anchoring onto the current year gives `delta_days` in `[0, 7)`: the
collected lines are the spec-side selection `qualLine` applied across the
book (in order), and the result is their join (or `None` when no contact
qualifies) — with no wrap-around to the next year, since `qualLine`
anchors only onto `today.year`. -/
theorem upcoming_birthdays_includes_iff_delta (book : Book) (today : Date)
    (h : ∀ e ∈ book, processUser today e.2 ≠ none) :
    collectAll book today = some (book.filterMap fun e => qualLine today e.2) ∧
    get_upcoming_birthdays book today =
      (if (book.filterMap fun e => qualLine today e.2) = [] then none
       else some (String.intercalate "\n"
         (book.filterMap fun e => qualLine today e.2))) := by
  have h1 := collectAll_eq_filterMap book today h
  refine ⟨h1, ?_⟩
  unfold get_upcoming_birthdays
  rw [h1]
  simp only [List.length_eq_zero]

/-- Witness for C1 on the spec's reference book: birthdays at `today + 0`,
`today + 6`, `today + 7`, `today - 1` around Monday 2024-06-10; exactly the
`+0` and `+6` contacts are selected.  A stored year below 1000 falls
outside the no-abort hypothesis: it re-parses to `none` (aborting). -/
theorem upcoming_birthdays_includes_iff_delta_witness :
    (∀ e ∈ refBook, processUser refToday e.2 ≠ none) ∧
    (collectAll refBook refToday =
      some (refBook.filterMap fun e => qualLine refToday e.2) ∧
    get_upcoming_birthdays refBook refToday =
      (if (refBook.filterMap fun e => qualLine refToday e.2) = [] then none
       else some (String.intercalate "\n"
         (refBook.filterMap fun e => qualLine refToday e.2)))) ∧
    (qualLine refToday recP0).isSome = true ∧
    (qualLine refToday recP6).isSome = true ∧
    qualLine refToday recP7 = none ∧
    qualLine refToday recM1 = none ∧
    (refBook.filterMap fun e => qualLine refToday e.2).length = 2 ∧
    processUser refToday ⟨"Old", [], some ⟨999, 6, 15⟩⟩ = none :=
  ⟨by decide, upcoming_birthdays_includes_iff_delta refBook refToday (by decide),
   by decide, by decide, by decide, by decide, by decide, by decide⟩

/-- C2: the congratulation date for a qualifying anchored date is the
anchored date itself when its weekday (Monday = 0) is below 5, and the
anchored date plus `7 - weekday` days — the following Monday, weekday 0 —
when it falls on Saturday (5) or Sunday (6).  In particular the spec's
example: against Monday 2024-06-10, a birthday anchoring to Saturday
2024-06-15 qualifies (delta 5) and shifts to Monday 2024-06-17. -/
theorem congratulation_date_weekend_shift (a : Date) (h : a.valid = true)
    (hy : a.year ≤ 9998) :
    (a.weekday < 5 → congratObj a = .inl (strftimeDMY a)) ∧
    (5 ≤ a.weekday →
      congratObj a = .inr (a.addDays (7 - a.weekday)) ∧
      (a.addDays (7 - a.weekday)).weekday = 0) ∧
    (deltaDays ⟨2024, 6, 15⟩ refToday = 5 ∧
     (qualLine refToday ⟨"S", [], some ⟨2001, 6, 15⟩⟩).isSome = true ∧
     congratObj ⟨2024, 6, 15⟩ = .inr ⟨2024, 6, 17⟩ ∧
     Date.weekday ⟨2024, 6, 17⟩ = 0) := by
  refine ⟨?_, ?_, by decide, by decide, by decide, by decide⟩
  · intro hwk
    unfold congratObj WEEKDAYS_LENGTH
    rw [if_pos hwk]
  · intro hwk
    refine ⟨?_, shift_to_monday a h hy hwk⟩
    unfold congratObj WEEKDAYS_LENGTH WEEK_LENGTH
    rw [if_neg (by omega)]

/-- Witness for C2 at the anchored Saturday 2024-06-15. -/
theorem congratulation_date_weekend_shift_witness :
    Date.valid ⟨2024, 6, 15⟩ = true ∧ 5 ≤ Date.weekday ⟨2024, 6, 15⟩ ∧
    congratObj ⟨2024, 6, 15⟩ =
      .inr (Date.addDays ⟨2024, 6, 15⟩ (7 - Date.weekday ⟨2024, 6, 15⟩)) ∧
    (Date.addDays ⟨2024, 6, 15⟩ (7 - Date.weekday ⟨2024, 6, 15⟩)).weekday = 0 :=
  ⟨by decide, by decide,
   ((congratulation_date_weekend_shift ⟨2024, 6, 15⟩ (by decide) (by decide)).2.1
      (by decide)).1,
   ((congratulation_date_weekend_shift ⟨2024, 6, 15⟩ (by decide) (by decide)).2.1
      (by decide)).2⟩

/-- C5 (counterexample): `"1.1.2024"` is accepted by `Birthday` although it
is not a strict `DD.MM.YYYY` string (no zero padding, length 8 instead of
10): `strptime`'s `%d` and `%m` also match single digits.  And the
rendering is not always the normalized `DD.MM.YYYY` form: the accepted
input `"15.06.0999"` stores year 999, which renders back as `"15.06.999"`
(`%Y` is unpadded), not as `"15.06.0999"`. -/
theorem birthday_unpadded_accepted_cex :
    Birthday.init "1.1.2024".data = .ok ⟨2024, 1, 1⟩ ∧
    "1.1.2024".data.length ≠ 10 ∧
    strftimeDMY ⟨2024, 1, 1⟩ = "01.01.2024" ∧
    Birthday.init "15.06.0999".data = .ok ⟨999, 6, 15⟩ ∧
    strftimeDMY ⟨999, 6, 15⟩ = "15.06.999" ∧
    strftimeDMY ⟨999, 6, 15⟩ ≠ "15.06.0999" := by
  refine ⟨by decide, by decide, by decide, by decide, by decide, by decide⟩

/-- C5 (amended): over ASCII input, `Birthday` construction succeeds
exactly on `D.M.YYYY` strings — day and month of one or two digits, year of
exactly four — denoting a real calendar date; the stored date renders back
with two-digit zero-padded day and month and an *unpadded* year, which is
the normalized `DD.MM.YYYY` form exactly when the year is at least 1000
(an accepted year field such as `0999` stores year 999 and renders back
with only three year digits); every malformed string and impossible date
fails with `Exception("Invalid date format. Use DD.MM.YYYY")`. -/
theorem birthday_validation_amended (s : List Char) (h : asciiOnly s) :
    (∀ d m y, dmyRepr s d m y →
      (Date.valid ⟨y, m, d⟩ = true → Birthday.init s = .ok ⟨y, m, d⟩) ∧
      (Date.valid ⟨y, m, d⟩ = false →
        Birthday.init s = .error "Invalid date format. Use DD.MM.YYYY")) ∧
    ((∀ d m y, ¬ dmyRepr s d m y) →
      Birthday.init s = .error "Invalid date format. Use DD.MM.YYYY") ∧
    (∀ dt, Birthday.init s = .ok dt →
      dmyRepr s dt.day dt.month dt.year ∧ Date.valid dt = true ∧
      strftimeDMY dt = pad2 dt.day ++ "." ++ pad2 dt.month ++ "." ++ natStr dt.year ∧
      (1000 ≤ dt.year →
        strftimeDMY dt = pad2 dt.day ++ "." ++ pad2 dt.month ++ "." ++ pad4 dt.year)) := by
  refine ⟨?_, ?_, ?_⟩
  · intro d m y hr
    have hp : parseStrptimeDMY s = some (d, m, y) :=
      (parseStrptimeDMY_some_iff s d m y).mpr hr
    constructor
    · intro hv
      simp only [Birthday.init, hp, hv, if_true]
    · intro hv
      simp only [Birthday.init, hp, hv, Bool.false_eq_true, if_false]
  · intro hn
    cases hp : parseStrptimeDMY s with
    | none => simp only [Birthday.init, hp]
    | some t =>
      obtain ⟨d, m, y⟩ := t
      exact absurd ((parseStrptimeDMY_some_iff s d m y).mp hp) (hn d m y)
  · intro dt hok
    cases hp : parseStrptimeDMY s with
    | none =>
      simp only [Birthday.init, hp] at hok
      exact absurd hok (by simp)
    | some t =>
      obtain ⟨d, m, y⟩ := t
      have hr := (parseStrptimeDMY_some_iff s d m y).mp hp
      simp only [Birthday.init, hp] at hok
      split at hok
      case isTrue hv =>
        obtain rfl : (⟨y, m, d⟩ : Date) = dt := by simpa using hok
        refine ⟨hr, hv, rfl, fun hy => ?_⟩
        have hy' : 1000 ≤ y := hy
        have hts : natStr y = pad4 y := by
          unfold pad4 natStr
          rw [if_neg (by omega), if_neg (by omega), if_neg (by omega)]
        show pad2 d ++ "." ++ pad2 m ++ "." ++ natStr y =
          pad2 d ++ "." ++ pad2 m ++ "." ++ pad4 y
        rw [hts]
      case isFalse => exact absurd hok (by simp)

/-- Witness for the amended C5: `"05.06.2024"` parses to 2024-06-05 and
renders back; `"31.02.2024"` represents an impossible date and fails. -/
theorem birthday_validation_amended_witness :
    asciiOnly "05.06.2024".data ∧
    dmyRepr "05.06.2024".data 5 6 2024 ∧
    Birthday.init "05.06.2024".data = .ok ⟨2024, 6, 5⟩ ∧
    dmyRepr "31.02.2024".data 31 2 2024 ∧
    Date.valid ⟨2024, 2, 31⟩ = false ∧
    Birthday.init "31.02.2024".data = .error "Invalid date format. Use DD.MM.YYYY" := by
  have hr1 : dmyRepr "05.06.2024".data 5 6 2024 :=
    ⟨['0', '5'], ['0', '6'], ['2', '0', '2', '4'], by decide, by decide, by decide,
     by decide, Or.inr (by decide), Or.inr (by decide), by decide, by decide,
     by decide, by decide⟩
  have hr2 : dmyRepr "31.02.2024".data 31 2 2024 :=
    ⟨['3', '1'], ['0', '2'], ['2', '0', '2', '4'], by decide, by decide, by decide,
     by decide, Or.inr (by decide), Or.inr (by decide), by decide, by decide,
     by decide, by decide⟩
  have ha1 : asciiOnly "05.06.2024".data := by intro c hc; fin_cases hc <;> decide
  have ha2 : asciiOnly "31.02.2024".data := by intro c hc; fin_cases hc <;> decide
  exact ⟨ha1, hr1,
    ((birthday_validation_amended "05.06.2024".data ha1).1 5 6 2024 hr1).1 (by decide),
    hr2, by decide,
    ((birthday_validation_amended "31.02.2024".data ha2).1 31 2 2024 hr2).2 (by decide)⟩

/-- C3 (counterexample): with Bob qualifying on 2023-06-01 and Lena holding
a Feb-29 birthday, the whole query returns `None` — Bob's result is lost —
whereas without Lena it succeeds.  The Feb-29 failure is a whole-query
abort, not a per-record skip. -/
theorem feb29_aborts_whole_query_cex :
    get_upcoming_birthdays [("Bob", recBob), ("Lena", recLena)] ⟨2023, 6, 1⟩ = none ∧
    (get_upcoming_birthdays [("Bob", recBob)] ⟨2023, 6, 1⟩).isSome = true := by
  constructor
  · decide
  · decide

/-- C3 (amended): if any contact's birthday is Feb 29 and the current year
is not a leap year, `get_upcoming_birthdays` returns `None` for the whole
book: the `ValueError` from re-anchoring escapes to the handler wrapped
around the entire loop, which prints it and falls through to `return None`,
discarding every other contact's qualifying result. -/
theorem feb29_aborts_whole_query (book : Book) (today : Date)
    (e : String × Record) (b : Date) (he : e ∈ book)
    (hb : Record.birthday e.2 = some b) (hm : b.month = 2) (hd : b.day = 29)
    (hl : isLeap today.year = false) :
    get_upcoming_birthdays book today = none := by
  have hp : processUser today e.2 = none := by
    cases hrb : reparseBirthday b with
    | none => simp only [processUser, hb, hrb]
    | some ub =>
      have hub : ub = b := reparseBirthday_eq b ub hrb
      have hrep : replaceYear b today.year = none := by
        unfold replaceYear
        rw [hm, hd]
        simp [daysInMonth, hl]
      simp only [processUser, hb, hrb, hub, hrep]
  rw [get_upcoming_birthdays, collectAll_none_of_mem_abort book today e he hp]

/-- Witness for the amended C3 at the Bob/Lena book on 2023-06-01. -/
theorem feb29_aborts_whole_query_witness :
    get_upcoming_birthdays [("Bob", recBob), ("Lena", recLena)] ⟨2023, 6, 1⟩ = none :=
  feb29_aborts_whole_query _ _ ("Lena", recLena) ⟨2000, 2, 29⟩
    (by decide) (by decide) (by decide) (by decide) (by decide)

/-- C6: `edit_phone old new` with a valid `new` appends `new` after erasing
the first occurrence of `old`; when `old` is absent the removal is a silent
no-op and every pre-existing phone stays, so the net effect is "add new". -/
theorem edit_phone_appends_or_renames (r : Record) (old newp : List Char)
    (h : Phone.init newp = .ok newp) :
    (old ∉ r.phones →
      r.edit_phone old newp = .ok ⟨r.name, r.phones ++ [newp], r.birthday⟩) ∧
    (old ∈ r.phones → ∃ l₁ l₂, old ∉ l₁ ∧ r.phones = l₁ ++ old :: l₂ ∧
      r.edit_phone old newp = .ok ⟨r.name, (l₁ ++ l₂) ++ [newp], r.birthday⟩) := by
  constructor
  · intro hno
    unfold Record.edit_phone Record.add_phone Record.remove_phone
    simp only [List.erase_of_not_mem hno, h]
  · intro hin
    obtain ⟨l₁, l₂, hnl, heq, her⟩ := List.exists_erase_eq hin
    refine ⟨l₁, l₂, hnl, heq, ?_⟩
    unfold Record.edit_phone Record.add_phone Record.remove_phone
    simp only [her, h]

/-- Witness for C6: on a record holding only `1234567890`, editing an
absent number adds the new phone and keeps the old; editing the present
number replaces it. -/
theorem edit_phone_appends_or_renames_witness :
    Phone.init "0987654321".data = .ok "0987654321".data ∧
    ("0000000000".data ∉ Record.phones ⟨"Kim", ["1234567890".data], none⟩) ∧
    Record.edit_phone ⟨"Kim", ["1234567890".data], none⟩
        "0000000000".data "0987654321".data =
      .ok ⟨"Kim", ["1234567890".data, "0987654321".data], none⟩ :=
  ⟨by decide, by decide,
   (edit_phone_appends_or_renames ⟨"Kim", ["1234567890".data], none⟩
      "0000000000".data "0987654321".data (by decide)).1 (by decide)⟩

/-- C7: whenever no contact qualifies (no record produces a line),
`get_upcoming_birthdays` returns `None` — an explicit absent result,
distinct from any list — and the `birthdays` command renders it as
"Upcoming birthdays not found.". -/
theorem no_qualifiers_yields_none (book : Book) (today : Date)
    (h : ∀ e ∈ book, ∀ l, processUser today e.2 ≠ some (some l)) :
    get_upcoming_birthdays book today = none ∧
    birthdaysCmd book today = "Upcoming birthdays not found." := by
  have h1 := collectAll_none_or_nil book today h
  have h2 : get_upcoming_birthdays book today = none := by
    rcases h1 with h1 | h1 <;> simp [get_upcoming_birthdays, h1]
  exact ⟨h2, by simp [birthdaysCmd, h2]⟩

/-- Witness for C7: a book whose records have no birthday or an
out-of-window one (anchored 2024-01-01 against 2024-06-10). -/
theorem no_qualifiers_yields_none_witness :
    (∀ e ∈ ([("A", ⟨"A", [], none⟩), ("B", ⟨"B", [], some ⟨1990, 1, 1⟩⟩)] : Book),
      ∀ l, processUser refToday e.2 ≠ some (some l)) ∧
    get_upcoming_birthdays
      [("A", ⟨"A", [], none⟩), ("B", ⟨"B", [], some ⟨1990, 1, 1⟩⟩)] refToday = none ∧
    birthdaysCmd
      [("A", ⟨"A", [], none⟩), ("B", ⟨"B", [], some ⟨1990, 1, 1⟩⟩)] refToday =
      "Upcoming birthdays not found." := by
  have hA : processUser refToday (⟨"A", [], none⟩ : Record) = some none := by decide
  have hB : processUser refToday (⟨"B", [], some ⟨1990, 1, 1⟩⟩ : Record) = some none := by
    decide
  have hh : ∀ e ∈ ([("A", ⟨"A", [], none⟩),
      ("B", ⟨"B", [], some ⟨1990, 1, 1⟩⟩)] : Book),
      ∀ l, processUser refToday e.2 ≠ some (some l) := by
    intro e he l h
    simp only [List.mem_cons, List.not_mem_nil, or_false] at he
    rcases he with rfl | rfl
    · rw [hA] at h
      simp at h
    · rw [hB] at h
      simp at h
  exact ⟨hh, (no_qualifiers_yields_none _ refToday hh).1,
    (no_qualifiers_yields_none _ refToday hh).2⟩

/-- C8: the missing-argument paths do not crash and do not escape, but the
`args[0]` commands do not produce the dedicated missing-argument message:
`phone` with no arguments returns the raw `IndexError` object (printed as
"list index out of range"), because the `except IndexError` clause sits
after `except Exception` and is dead; only the tuple-unpacking commands
(e.g. `add` with one token) yield the crafted
"Enter the argument for the command." message. -/
theorem missing_argument_handling :
    input_error (show_phone [] []) = .excObj (.indexError "list index out of range") ∧
    input_error (show_phone [] []) ≠ .msg "Give me both name and phone number." ∧
    input_error (show_phone [] []) ≠ .msg "Enter the argument for the command." ∧
    (add_contact ["Alice".data] []).2 = [] ∧
    input_error (add_contact ["Alice".data] []).1 =
      .msg "Enter the argument for the command." := by
  refine ⟨by decide, by decide, by decide, by decide, by decide⟩

/-- C10: a string rejected by the `Birthday` constructor makes
`add_birthday` raise and leaves both the record and the whole book exactly
as they were: the assignment happens only after successful construction. -/
theorem add_birthday_atomic_on_error (b : Book) (name s : List Char) (r : Record)
    (e : String) (hr : b.find (String.mk name) = some r)
    (h : Birthday.init s = .error e) :
    add_birthday_cmd [name, s] b = (.error (.exception e), b) ∧
    Record.add_birthday r s = .error e := by
  constructor
  · unfold add_birthday_cmd unpack2
    simp only [hr, h]
  · unfold Record.add_birthday
    rw [h]

theorem mem_dictSet (b : Book) (k : String) (v : Record) (e : String × Record)
    (he : e ∈ dictSet b k v) : e = (k, v) ∨ e ∈ b := by
  induction b with
  | nil =>
    simp only [dictSet, List.mem_singleton] at he
    exact Or.inl he
  | cons x rest ih =>
    obtain ⟨k', v'⟩ := x
    unfold dictSet at he
    by_cases hk : k' = k
    · rw [if_pos hk] at he
      rcases List.mem_cons.mp he with h1 | h1
      · exact Or.inl h1
      · exact Or.inr (List.mem_cons_of_mem _ h1)
    · rw [if_neg hk] at he
      rcases List.mem_cons.mp he with h1 | h1
      · exact Or.inr (by simp [h1])
      · rcases ih h1 with h2 | h2
        · exact Or.inl h2
        · exact Or.inr (List.mem_cons_of_mem _ h2)

theorem dictSet_keys (b : Book) (k : String) (v : Record) :
    (dictSet b k v).map Prod.fst =
      (if k ∈ b.map Prod.fst then b.map Prod.fst else b.map Prod.fst ++ [k]) := by
  induction b with
  | nil => simp [dictSet]
  | cons x rest ih =>
    obtain ⟨k', v'⟩ := x
    unfold dictSet
    by_cases hk : k' = k
    · subst hk
      simp
    · rw [if_neg hk]
      simp only [List.map_cons, ih]
      by_cases hmem : k ∈ rest.map Prod.fst
      · simp [hmem, Ne.symm hk]
      · simp [hmem, Ne.symm hk]

theorem mem_dictDel (b : Book) (k : String) (e : String × Record)
    (he : e ∈ dictDel b k) : e ∈ b := by
  induction b with
  | nil => cases he
  | cons x rest ih =>
    obtain ⟨k', v'⟩ := x
    unfold dictDel at he
    by_cases hk : k' = k
    · rw [if_pos hk] at he
      exact List.mem_cons_of_mem _ he
    · rw [if_neg hk] at he
      rcases List.mem_cons.mp he with h1 | h1
      · simp [h1]
      · exact List.mem_cons_of_mem _ (ih h1)

theorem dictDel_keys_sublist (b : Book) (k : String) :
    ((dictDel b k).map Prod.fst).Sublist (b.map Prod.fst) := by
  induction b with
  | nil => simp [dictDel]
  | cons x rest ih =>
    obtain ⟨k', v'⟩ := x
    unfold dictDel
    by_cases hk : k' = k
    · rw [if_pos hk]
      simp only [List.map_cons]
      exact List.sublist_cons_self k' (rest.map Prod.fst)
    · rw [if_neg hk]
      simp only [List.map_cons]
      exact ih.cons₂ k'

theorem mutateAt_keys (b : Book) (k : String) (f : Record → Record) :
    (Book.mutateAt b k f).map Prod.fst = b.map Prod.fst := by
  induction b with
  | nil => rfl
  | cons x rest ih =>
    obtain ⟨k', v⟩ := x
    unfold Book.mutateAt
    by_cases hk : k' = k
    · rw [if_pos hk]
      simp
    · rw [if_neg hk]
      simp [ih]

theorem mutateAt_pres_names (b : Book) (k : String) (f : Record → Record)
    (hf : ∀ r, Record.name (f r) = Record.name r)
    (h : ∀ e ∈ b, Record.name e.2 = e.1) :
    ∀ e ∈ Book.mutateAt b k f, Record.name e.2 = e.1 := by
  induction b with
  | nil => intro e he; cases he
  | cons x rest ih =>
    obtain ⟨k', v⟩ := x
    intro e he
    unfold Book.mutateAt at he
    by_cases hk : k' = k
    · rw [if_pos hk] at he
      rcases List.mem_cons.mp he with h1 | h1
      · subst h1
        show Record.name (f v) = k'
        rw [hf]
        exact h (k', v) (by simp)
      · exact h e (List.mem_cons_of_mem _ h1)
    · rw [if_neg hk] at he
      rcases List.mem_cons.mp he with h1 | h1
      · subst h1
        exact h (k', v) (by simp)
      · exact ih (fun e' he' => h e' (List.mem_cons_of_mem _ he')) e h1

theorem bookInv_dictSet (b : Book) (k : String) (v : Record) (h : bookInv b)
    (hv : Record.name v = k) : bookInv (dictSet b k v) := by
  obtain ⟨h1, h2⟩ := h
  constructor
  · intro e he
    rcases mem_dictSet b k v e he with h3 | h3
    · subst h3
      exact hv
    · exact h1 e h3
  · rw [dictSet_keys]
    split_ifs with hmem
    · exact h2
    · exact List.Nodup.append h2 (List.nodup_singleton k)
        (by simp [List.disjoint_singleton, hmem])

theorem bookInv_mutateAt (b : Book) (k : String) (f : Record → Record)
    (hf : ∀ r, Record.name (f r) = Record.name r) (h : bookInv b) :
    bookInv (Book.mutateAt b k f) :=
  ⟨mutateAt_pres_names b k f hf h.1, by rw [mutateAt_keys]; exact h.2⟩

theorem bookInv_dictDel (b : Book) (k : String) (h : bookInv b) :
    bookInv (dictDel b k) :=
  ⟨fun e he => h.1 e (mem_dictDel b k e he), h.2.sublist (dictDel_keys_sublist b k)⟩

theorem bookInv_applyOp (b : Book) (op : Op) (h : bookInv b) :
    bookInv (applyOp b op) := by
  cases op with
  | addRecordOp r => exact bookInv_dictSet b r.name r h rfl
  | addContactOp name phone =>
    show bookInv (add_contact [name, phone] b).2
    simp only [add_contact, unpack2]
    cases hf : b.find (String.mk name) with
    | none =>
      have hb1 : bookInv (b.add_record (Record.mk0 (String.mk name))) :=
        bookInv_dictSet b _ _ h rfl
      by_cases hp : phone = []
      · simp only [if_pos hp]
        exact hb1
      · simp only [if_neg hp]
        cases hpi : Phone.init phone with
        | ok v => exact bookInv_mutateAt _ _ _ (fun r => rfl) hb1
        | error e => exact hb1
    | some r0 =>
      by_cases hp : phone = []
      · simp only [if_pos hp]
        exact h
      · simp only [if_neg hp]
        cases hpi : Phone.init phone with
        | ok v => exact bookInv_mutateAt _ _ _ (fun r => rfl) h
        | error e => exact h
  | changeOp name oldp newp =>
    show bookInv (change_contact [name, oldp, newp] b).2
    simp only [change_contact, unpack3]
    cases hf : b.find (String.mk name) with
    | none => exact h
    | some r0 =>
      have hb1 : bookInv (b.mutateAt (String.mk name) fun r => r.remove_phone oldp) :=
        bookInv_mutateAt _ _ _ (fun r => rfl) h
      cases hpi : Phone.init newp with
      | ok v => exact bookInv_mutateAt _ _ _ (fun r => rfl) hb1
      | error e => exact hb1
  | addBirthdayOp name bd =>
    show bookInv (add_birthday_cmd [name, bd] b).2
    simp only [add_birthday_cmd, unpack2]
    cases hf : b.find (String.mk name) with
    | none => exact h
    | some r0 =>
      cases hpi : Birthday.init bd with
      | ok d => exact bookInv_mutateAt _ _ _ (fun r => rfl) h
      | error e => exact h
  | deleteOp args =>
    show bookInv (delete_contact args b).2
    cases args with
    | nil => exact h
    | cons name rest =>
      simp only [delete_contact]
      cases hf : b.find (String.mk name) with
      | none => exact h
      | some r0 => exact bookInv_dictDel b _ h

/-- C9: every address book reachable from the empty book through the public
operations (`add_record`, `add_contact`, `change_contact`, `add_birthday`,
`delete_contact`) satisfies the key invariant: each stored record's `name`
equals the key it is stored under, and keys are unique. -/
theorem address_book_key_invariant (ops : List Op) : bookInv (reachable ops) := by
  suffices hgen : ∀ b, bookInv b → bookInv (ops.foldl applyOp b) from
    hgen [] ⟨fun e he => absurd he (List.not_mem_nil e), List.nodup_nil⟩
  induction ops with
  | nil => exact fun b hb => hb
  | cons op rest ih => exact fun b hb => ih _ (bookInv_applyOp b op hb)

/-- Witness for C10: `31.02.2024` against a record with a stored birthday
and phone; the book is returned untouched. -/
theorem add_birthday_atomic_on_error_witness :
    Birthday.init "31.02.2024".data = .error "Invalid date format. Use DD.MM.YYYY" ∧
    add_birthday_cmd ["Bob".data, "31.02.2024".data] [("Bob", recBob)] =
      (.error (.exception "Invalid date format. Use DD.MM.YYYY"), [("Bob", recBob)]) ∧
    Record.add_birthday recBob "31.02.2024".data =
      .error "Invalid date format. Use DD.MM.YYYY" :=
  ⟨by decide,
   (add_birthday_atomic_on_error [("Bob", recBob)] "Bob".data "31.02.2024".data
      recBob _ (by decide) (by decide)).1,
   (add_birthday_atomic_on_error [("Bob", recBob)] "Bob".data "31.02.2024".data
      recBob _ (by decide) (by decide)).2⟩

end Task1
